import Mathlib

/-!
Verification of the commercial-performance normalization pipeline
(`app.py`): currency parsing, per-(store, month) day counting, monthly
target backfill, first-difference daily deltas, pro-rated daily targets,
and the per-date aggregation with cumulative/deviation series.

Values are modelled exactly: currency amounts and targets are rationals
(the Python floats hold exact decimals in all behaviour the spec fixes),
dates are (year, month, day) triples of naturals (calendar-valid in all
inputs considered), and a table is a list of rows in dataframe order.
Missing values (`NaT` dates, `NaN` day counts and derived columns) are
`Option.none`.  Python strings are modelled as character lists so that
every operation is structurally recursive.
-/

namespace Desempenho

/- Batteries seals the rational-number kernel operations against
unfolding; re-opening them lets `decide` evaluate the pipeline on the
concrete tables below. -/
attribute [local semireducible] Rat.add Rat.mul Rat.inv Rat.sub Rat.ofScientific

/-! ## Currency parser (`limpar_moeda`, app.py lines 25-41) -/

/-- A cell value as `limpar_moeda` receives it: a missing value
(`pd.isna`), a number (`int`/`float`/`np.number`), a string, or any
other object (which falls through every `isinstance` check). -/
inductive Valor where
  | nulo : Valor
  | num (q : ℚ) : Valor
  | texto (s : String) : Valor
  | outro : Valor
deriving DecidableEq, Repr

/-- Python `str.strip()` from the left only. -/
def tiraEsq (l : List Char) : List Char := l.dropWhile Char.isWhitespace

/-- Python `str.strip()`: drop whitespace from both ends. -/
def tira (l : List Char) : List Char := (tiraEsq (tiraEsq l).reverse).reverse

/-- Python `str.replace(⟨a,b⟩, "")` for a two-character pattern: remove
every occurrence, scanning left to right without overlap. -/
def remPar (a b : Char) : List Char → List Char
  | [] => []
  | [c] => [c]
  | c :: d :: rest =>
    if c == a && d == b then remPar a b rest else c :: remPar a b (d :: rest)

/-- Python `str.replace(",", ".")`. -/
def virgulaPonto (l : List Char) : List Char :=
  l.map (fun c => if c == ',' then '.' else c)

/-- Does the character list start with exactly three digits followed by a
comma?  This is the lookahead of the regex `\.(?=\d{3},)` at the position
just after a dot. -/
def milhar : List Char → Bool
  | a :: b :: c :: d :: _ => a.isDigit && b.isDigit && c.isDigit && d == ','
  | _ => false

/-- `re.sub(r"\.(?=\d{3},)", "", v)`: drop every dot that is immediately
followed by three digits and a comma.  The lookahead consumes nothing, so
a left-to-right scan is exact. -/
def remMilhar : List Char → List Char
  | [] => []
  | c :: rest =>
    if c == '.' && milhar rest then remMilhar rest else c :: remMilhar rest

/-- Value of a digit string read in base 10 (`'0'`–`'9'` only). -/
def digitos (l : List Char) : ℕ :=
  l.foldl (fun a c => a * 10 + (c.toNat - 48)) 0

/-- Python `float(v)` on the strings this pipeline can feed it, i.e. the
plain decimal forms: optional surrounding whitespace, an optional sign,
digits with at most one dot, at least one digit overall.  (Exponent,
`inf`/`nan` and underscore forms of `float` are not currency shapes and
never arise here.)  `none` is the `ValueError` branch. -/
def parseFloat (s : List Char) : Option ℚ :=
  let t := tira s
  let sl : ℚ × List Char :=
    match t with
    | '-' :: rest => (-1, rest)
    | '+' :: rest => (1, rest)
    | _ => (1, t)
  let ip := sl.2.takeWhile (fun c => c != '.')
  let resto := sl.2.dropWhile (fun c => c != '.')
  match resto with
  | [] =>
    if ip.all Char.isDigit && !ip.isEmpty then
      some (sl.1 * digitos ip)
    else none
  | _ :: fp =>
    if ip.all Char.isDigit && fp.all Char.isDigit &&
        !(ip.isEmpty && fp.isEmpty) then
      some (sl.1 * ((digitos ip : ℚ) + (digitos fp : ℚ) / (10 : ℚ) ^ fp.length))
    else none

/-- `limpar_moeda` (app.py lines 25-41): missing → 0.0; numeric passes
through; strings are trimmed, `""`/`"-"` → 0.0, `"R$"`/`"r$"` markers
removed, Brazilian thousands dots removed, the comma turned into a
decimal point, and the result parsed with `float`, any failure yielding
0.0; any other object → 0.0. -/
def limpar_moeda : Valor → ℚ
  | Valor.nulo => 0
  | Valor.num q => q
  | Valor.texto s =>
    let v := tira s.toList
    if v = [] ∨ v = ['-'] then 0
    else
      let v := tira (remPar 'r' '$' (remPar 'R' '$' v))
      let v := virgulaPonto (remMilhar v)
      (parseFloat v).getD 0
  | Valor.outro => 0

/-! ## Data model

A ledger row after the column-wise currency parse (lines 63-65) and the
date parse (line 67).  `data = none` is a `NaT` produced by
`pd.to_datetime(..., errors="coerce")`.  The derived columns `dias`
(`DIAS`), `realVariacao` (`Real_Variacao`) and `metaDia` (`Meta Dia`)
start out absent and are filled by the pipeline; `none` there is a `NaN`
cell. -/

structure Date where
  year : ℕ
  month : ℕ
  day : ℕ
deriving DecidableEq, Repr

structure Row where
  loja : String
  produto : String
  regional : String
  coordenador : String
  data : Option Date
  real : ℚ
  metaMes : ℚ
  dias : Option ℕ := none
  realVariacao : Option ℚ := none
  metaDia : Option ℚ := none
deriving DecidableEq, Repr

/-- Numeric key of `ano_mes = Data.dt.to_period("M")` (line 70). -/
def ymN (d : Date) : ℕ := d.year * 100 + d.month

/-- Numeric key of a calendar date; injective and monotone on calendar
dates (`month ≤ 12`, `day ≤ 31`). -/
def dN (d : Date) : ℕ := ymN d * 100 + d.day

/-- The `groupby(["Nome_Loja", "ano_mes"])` key of a row; `none` when the
date is `NaT`, in which case pandas drops the row from every group. -/
def chave (r : Row) : Option (String × ℕ) := r.data.map (fun d => (r.loja, ymN d))

/-- The rows of the (store, month) group `k`, in table order. -/
def grupo (rows : List Row) (k : String × ℕ) : List Row :=
  rows.filter (fun r => decide (chave r = some k))

/-! ## DIAS (app.py lines 70-77)

`df.groupby(["Nome_Loja", "ano_mes"]).size()` counts the rows of each
group; the left-merge writes that count onto every row of the group and
leaves `NaN` on rows whose `ano_mes` is `NaT` (pandas drops null keys
from the group-by). -/

def diasDe (rows : List Row) (r : Row) : Option ℕ :=
  (chave r).map (fun k => (grupo rows k).length)

def addDias (rows : List Row) : List Row :=
  rows.map (fun r => { r with dias := diasDe rows r })

/-! ## Meta Mês backfill (app.py lines 80-86)

`replace(0, pd.NA)` then a per-group `bfill()` then `fillna(0)`: a zero
target takes the next non-zero target below it in the same group, in the
table order the frame has at this point (the sort happens only at line
89); with no such value it becomes 0.  Rows outside every group (`NaT`
dates) come back `NaN` from the transform and are zeroed by `fillna`. -/

/-- First non-zero `Meta Mês` among the later rows of `r`'s group. -/
def proxMeta (r : Row) : List Row → ℚ
  | [] => 0
  | s :: rest =>
    if chave s = chave r ∧ s.metaMes ≠ 0 then s.metaMes else proxMeta r rest

/-- The backfilled `Meta Mês` of a row, given the rows after it. -/
def novoMeta (r : Row) (rest : List Row) : ℚ :=
  if chave r = none then 0
  else if r.metaMes ≠ 0 then r.metaMes
  else proxMeta r rest

def addMeta : List Row → List Row
  | [] => []
  | r :: rest => { r with metaMes := novoMeta r rest } :: addMeta rest

/-! ## Sort (app.py line 89)

`df.sort_values(["Nome_Loja", "ano_mes", "Data"])`.  `NaT` sorts last
within its store (`na_position="last"`); ties are broken by keeping the
incoming order, which fixes one of the orders pandas' unstable quicksort
may produce (no claim depends on the order of fully tied rows). -/

def ymT (r : Row) : WithTop ℕ :=
  match r.data with
  | some d => (ymN d : WithTop ℕ)
  | none => ⊤

def dT (r : Row) : WithTop ℕ :=
  match r.data with
  | some d => (dN d : WithTop ℕ)
  | none => ⊤

/-- Sort key: store name (lexicographic, as pandas compares strings),
then month period, then date. -/
def sortKey (r : Row) : List Char ×ₗ (WithTop ℕ ×ₗ WithTop ℕ) :=
  toLex (r.loja.toList, toLex (ymT r, dT r))

def rowLE (a b : Row) : Prop := sortKey a ≤ sortKey b

instance : IsTotal Row rowLE := ⟨fun a b => le_total (sortKey a) (sortKey b)⟩

instance : IsTrans Row rowLE := ⟨fun _ _ _ h h2 => le_trans h h2⟩

instance : DecidableRel rowLE :=
  fun a b => inferInstanceAs (Decidable (sortKey a ≤ sortKey b))

/-! ## Real_Variacao (app.py lines 91-99)

Per (store, month) group on the sorted frame: first row keeps its `Real`,
every later row gets `Real` minus the previous group row's `Real`
(`x - x.shift(1)` with `v.iloc[0] = x.iloc[0]`).  Rows outside every
group keep a `NaN`. -/

/-- `Real` of the last earlier row of `r`'s group, `prev` being the rows
before `r` in table order. -/
def realAnterior (r : Row) (prev : List Row) : Option ℚ :=
  ((prev.filter (fun s => decide (chave s = chave r))).getLast?).map (·.real)

/-- The first-difference value of a row, given the rows before it. -/
def novaRV (r : Row) (prev : List Row) : Option ℚ :=
  match chave r with
  | none => none
  | some _ =>
    match realAnterior r prev with
    | none => some r.real
    | some p => some (r.real - p)

def addRVgo : List Row → List Row → List Row
  | _, [] => []
  | prev, r :: rest =>
    { r with realVariacao := novaRV r prev } :: addRVgo (prev ++ [r]) rest

def addRV (rows : List Row) : List Row := addRVgo [] rows

/-! ## Meta Dia (app.py line 102) and the full load -/

def addMetaDia (rows : List Row) : List Row :=
  rows.map (fun r => { r with metaDia := r.dias.map (fun n : ℕ => r.metaMes / (n : ℚ)) })

/-- `carregar_dados` from the parsed table on: DIAS, target backfill,
sort, per-group first difference, daily target. -/
def carregar_dados (rows : List Row) : List Row :=
  addMetaDia (addRV (List.insertionSort rowLE (addMeta (addDias rows))))

/-! ## Group-level reference functions -/

/-- The `Meta Mês` column of group `k`, in table order. -/
def groupMetas (rows : List Row) (k : String × ℕ) : List ℚ :=
  (grupo rows k).map (·.metaMes)

/-- The `Real` column of group `k`, in table order. -/
def groupReais (rows : List Row) (k : String × ℕ) : List ℚ :=
  (grupo rows k).map (·.real)

/-- The `Real_Variacao` column of group `k` (group rows always carry a
value; `0` stands in for an impossible `NaN`). -/
def groupRV (rows : List Row) (k : String × ℕ) : List ℚ :=
  (grupo rows k).map (fun r => r.realVariacao.getD 0)

/-- The backward-fill contract of the spec (§4.3), stated directly on the
group's target sequence: zero is missing, a missing value takes the first
non-zero value after it, and 0 if there is none. -/
def backfillSpec : List ℚ → List ℚ
  | [] => []
  | x :: xs =>
    (if x ≠ 0 then x else ((xs.find? (fun y => decide (y ≠ 0))).getD 0)) :: backfillSpec xs

/-- The inner `variacao` of `carregar_dados` (lines 91-94) on a group's
`Real` sequence: `v = x - x.shift(1); v.iloc[0] = x.iloc[0]`. -/
def variacao : List ℚ → List ℚ
  | [] => []
  | x :: xs => x :: List.zipWith (fun a b => a - b) xs (x :: xs)

/-- Count of distinct days observed in group `k` of the raw data — the
quantity §2/glossary of the spec say `DIAS` is. -/
def diasDistintos (rows : List Row) (k : String × ℕ) : ℕ :=
  ((grupo rows k).filterMap (·.data)).dedup.length

/-! ## Filters, window, aggregation (app.py lines 157-192)

Each select-box filter is an exact match or the "Todos"/"Todas" sentinel
(`none` here); the (year, month) window compares `Data.dt.year` and
`.dt.month`, which is false on `NaT`.  The empty check (line 173) stops
the page (`st.stop`) before any aggregation, so the result is an
`Option`: `none` is the "Nenhum dado após aplicar os filtros" state. -/

def aplicarFiltros (rows : List Row)
    (produtoSel regionalSel coordenadorSel lojaSel : Option String) : List Row :=
  let f1 := match produtoSel with
    | none => rows
    | some v => rows.filter (fun r => decide (r.produto = v))
  let f2 := match regionalSel with
    | none => f1
    | some v => f1.filter (fun r => decide (r.regional = v))
  let f3 := match coordenadorSel with
    | none => f2
    | some v => f2.filter (fun r => decide (r.coordenador = v))
  match lojaSel with
  | none => f3
  | some v => f3.filter (fun r => decide (r.loja = v))

def janela (rows : List Row) (ano mes : ℕ) : List Row :=
  rows.filter (fun r =>
    match r.data with
    | some d => decide (d.year = ano ∧ d.month = mes)
    | none => false)

/-- A row of `df_grouped`: one calendar date of the selection with the
summed daily figures and the running and deviation series. -/
structure AggRow where
  data : Date
  realVariacao : ℚ
  metaDia : ℚ
  realAcum : ℚ
  metaAcum : ℚ
  desvioDia : ℚ
  desvioAcum : ℚ
deriving DecidableEq, Repr

/-- Sum of `Real_Variacao` over the rows carrying date `d` (pandas `sum`
skips `NaN`, hence `getD 0`). -/
def somaRV (rows : List Row) (d : Date) : ℚ :=
  ((rows.filter (fun r => decide (r.data = some d))).map (fun r => r.realVariacao.getD 0)).sum

/-- Sum of `Meta Dia` over the rows carrying date `d`. -/
def somaMD (rows : List Row) (d : Date) : ℚ :=
  ((rows.filter (fun r => decide (r.data = some d))).map (fun r => r.metaDia.getD 0)).sum

def dLE (a b : Date) : Prop := dN a ≤ dN b

instance : IsTotal Date dLE := ⟨fun a b => Nat.le_total (dN a) (dN b)⟩

instance : IsTrans Date dLE := ⟨fun _ _ _ h h2 => Nat.le_trans h h2⟩

instance : DecidableRel dLE := fun a b => inferInstanceAs (Decidable (dN a ≤ dN b))

/-- The distinct dates of the selection, ascending. -/
def datas (rows : List Row) : List Date :=
  List.insertionSort dLE ((rows.filterMap (·.data)).dedup)

/-- Running sums and deviations (lines 189-192), carrying the cumulative
`REAL_ACUM` and `META_ACUM` so far. -/
def acumula : ℚ → ℚ → List (Date × ℚ × ℚ) → List AggRow
  | _, _, [] => []
  | ra, ma, (d, rv, md) :: rest =>
    { data := d, realVariacao := rv, metaDia := md,
      realAcum := ra + rv, metaAcum := ma + md,
      desvioDia := rv - md, desvioAcum := (ra + rv) - (ma + md) }
      :: acumula (ra + rv) (ma + md) rest

/-- `df_grouped` (lines 180-192): group the filtered rows by date,
summing `Real_Variacao` and `Meta Dia`, sort ascending by date, then the
running and deviation columns. -/
def df_grouped (rows : List Row) : List AggRow :=
  acumula 0 0 ((datas rows).map (fun d => (d, somaRV rows d, somaMD rows d)))

/-- `df_f` (lines 157-171): the loaded table after the four sidebar
filters and the mandatory (year, month) window. -/
def df_f (rede : List Row)
    (produtoSel regionalSel coordenadorSel lojaSel : Option String)
    (ano mes : ℕ) : List Row :=
  janela (aplicarFiltros rede produtoSel regionalSel coordenadorSel lojaSel) ano mes

/-- The page computation: load, filter, window; stop with the "no data"
signal when the subset is empty (line 173-175), otherwise aggregate. -/
def painel (raw : List Row)
    (produtoSel regionalSel coordenadorSel lojaSel : Option String)
    (ano mes : ℕ) : Option (List AggRow) :=
  let f := df_f (carregar_dados raw) produtoSel regionalSel coordenadorSel lojaSel ano mes
  if f.isEmpty then none else some (df_grouped f)

/-! ## List-level lemmas about the backfill and first-difference kernels -/

theorem backfillSpec_length (l : List ℚ) : (backfillSpec l).length = l.length := by
  induction l with
  | nil => rfl
  | cons x xs ih => simp [backfillSpec, ih]

theorem backfillSpec_getD (l : List ℚ) :
    ∀ i : ℕ, (backfillSpec l).getD i 0 =
      ((l.drop i).find? (fun y => decide (y ≠ 0))).getD 0 := by
  induction l with
  | nil => intro i; simp [backfillSpec]
  | cons x xs ih =>
    intro i
    cases i with
    | zero =>
      by_cases hx : x = 0
      · simp [backfillSpec, hx, List.find?_cons]
      · simp [backfillSpec, hx, List.find?_cons]
    | succ i => simpa [backfillSpec] using ih i

/-- The per-group first difference, carrying the previous row's `Real`
(the value `x.shift(1)` exposes) as an accumulator. -/
def variacaoFrom : Option ℚ → List ℚ → List ℚ
  | _, [] => []
  | p, x :: xs =>
    (match p with
     | none => x
     | some q => x - q) :: variacaoFrom (some x) xs

theorem variacaoFrom_cons (p : Option ℚ) (x : ℚ) (xs : List ℚ) :
    variacaoFrom p (x :: xs) =
      (match p with
       | none => x
       | some q => x - q) :: variacaoFrom (some x) xs := rfl

theorem zipWith_sub_shift (xs : List ℚ) :
    ∀ x : ℚ, List.zipWith (fun a b => a - b) xs (x :: xs) = variacaoFrom (some x) xs := by
  induction xs with
  | nil => intro x; rfl
  | cons y ys ih => intro x; simp [variacaoFrom, List.zipWith_cons_cons, ih]

theorem variacao_eq_from (l : List ℚ) : variacao l = variacaoFrom none l := by
  cases l with
  | nil => rfl
  | cons x xs => simp [variacao, variacaoFrom, zipWith_sub_shift]

theorem variacaoFrom_length (l : List ℚ) : ∀ p, (variacaoFrom p l).length = l.length := by
  induction l with
  | nil => intro p; rfl
  | cons x xs ih => intro p; simp [variacaoFrom, ih]

theorem variacao_length (l : List ℚ) : (variacao l).length = l.length := by
  rw [variacao_eq_from]; exact variacaoFrom_length l none

theorem variacao_getD_zero (l : List ℚ) : (variacao l).getD 0 0 = l.getD 0 0 := by
  cases l with
  | nil => rfl
  | cons x xs => simp [variacao]

theorem variacaoFrom_getD_succ (l : List ℚ) :
    ∀ (p : Option ℚ) (i : ℕ), i + 1 < l.length →
      (variacaoFrom p l).getD (i + 1) 0 = l.getD (i + 1) 0 - l.getD i 0 := by
  induction l with
  | nil => intro p i h; simp at h
  | cons x xs ih =>
    intro p i h
    cases i with
    | zero =>
      cases xs with
      | nil => simp at h
      | cons y ys => simp [variacaoFrom]
    | succ i =>
      have hlt : i + 1 < xs.length := by simpa using h
      simpa [variacaoFrom] using ih (some x) i hlt

theorem soma_variacaoFrom_some (l : List ℚ) :
    ∀ q : ℚ, (variacaoFrom (some q) l).sum = l.getLast?.getD q - q := by
  induction l with
  | nil => intro q; simp [variacaoFrom]
  | cons x xs ih =>
    intro q
    cases xs with
    | nil => simp [variacaoFrom]
    | cons y ys =>
      cases hz : (y :: ys).getLast? with
      | none => simp at hz
      | some z =>
        have hx := ih x
        rw [hz] at hx
        have hS : (variacaoFrom (some y) ys).sum = z - y := by
          simp only [variacaoFrom, List.sum_cons, Option.getD_some] at hx
          linarith
        simp only [variacaoFrom, List.sum_cons, List.getLast?_cons_cons, hz,
          Option.getD_some, hS]
        ring

/-! ## Field-preservation facts for the row updates -/

theorem chave_upd_meta (r : Row) (m : ℚ) : chave { r with metaMes := m } = chave r := rfl

theorem chave_upd_dias (r : Row) (n : Option ℕ) : chave { r with dias := n } = chave r := rfl

theorem chave_upd_rv (r : Row) (v : Option ℚ) :
    chave { r with realVariacao := v } = chave r := rfl

theorem chave_upd_md (r : Row) (v : Option ℚ) : chave { r with metaDia := v } = chave r := rfl

theorem sortKey_upd_meta (r : Row) (m : ℚ) : sortKey { r with metaMes := m } = sortKey r := rfl

theorem sortKey_upd_dias (r : Row) (n : Option ℕ) :
    sortKey { r with dias := n } = sortKey r := rfl

/-! ## Group extraction through the pipeline stages -/

theorem grupo_cons (r : Row) (rows : List Row) (k : String × ℕ) :
    grupo (r :: rows) k =
      if chave r = some k then r :: grupo rows k else grupo rows k := by
  simp [grupo, List.filter_cons]

theorem groupMetas_cons (r : Row) (rows : List Row) (k : String × ℕ) :
    groupMetas (r :: rows) k =
      if chave r = some k then r.metaMes :: groupMetas rows k else groupMetas rows k := by
  by_cases h : chave r = some k <;> simp [groupMetas, grupo_cons, h]

theorem groupReais_cons (r : Row) (rows : List Row) (k : String × ℕ) :
    groupReais (r :: rows) k =
      if chave r = some k then r.real :: groupReais rows k else groupReais rows k := by
  by_cases h : chave r = some k <;> simp [groupReais, grupo_cons, h]

theorem groupRV_cons (r : Row) (rows : List Row) (k : String × ℕ) :
    groupRV (r :: rows) k =
      if chave r = some k then r.realVariacao.getD 0 :: groupRV rows k
      else groupRV rows k := by
  by_cases h : chave r = some k <;> simp [groupRV, grupo_cons, h]

theorem grupo_map (f : Row → Row) (hf : ∀ r, chave (f r) = chave r) (l : List Row)
    (k : String × ℕ) : grupo (l.map f) k = (grupo l k).map f := by
  induction l with
  | nil => rfl
  | cons r rest ih =>
    by_cases h : chave r = some k <;>
      simp [grupo_cons, hf, h, ih]

theorem extract_map {α : Type} (f : Row → Row) (g : Row → α)
    (hf : ∀ r, chave (f r) = chave r) (hg : ∀ r, g (f r) = g r) (l : List Row)
    (k : String × ℕ) : (grupo (l.map f) k).map g = (grupo l k).map g := by
  rw [grupo_map f hf, List.map_map]
  have hgf : g ∘ f = g := funext hg
  rw [hgf]

theorem groupMetas_addDias (rows : List Row) (k : String × ℕ) :
    groupMetas (addDias rows) k = groupMetas rows k :=
  extract_map (fun r => { r with dias := diasDe rows r }) (fun r => r.metaMes)
    (fun _ => rfl) (fun _ => rfl) rows k

theorem groupReais_addDias (rows : List Row) (k : String × ℕ) :
    groupReais (addDias rows) k = groupReais rows k :=
  extract_map (fun r => { r with dias := diasDe rows r }) (fun r => r.real)
    (fun _ => rfl) (fun _ => rfl) rows k

theorem groupMetas_addMetaDia (rows : List Row) (k : String × ℕ) :
    groupMetas (addMetaDia rows) k = groupMetas rows k :=
  extract_map (fun r => { r with metaDia := r.dias.map (fun n : ℕ => r.metaMes / (n : ℚ)) })
    (fun r => r.metaMes) (fun _ => rfl) (fun _ => rfl) rows k

theorem groupRV_addMetaDia (rows : List Row) (k : String × ℕ) :
    groupRV (addMetaDia rows) k = groupRV rows k :=
  extract_map (fun r => { r with metaDia := r.dias.map (fun n : ℕ => r.metaMes / (n : ℚ)) })
    (fun r => r.realVariacao.getD 0) (fun _ => rfl) (fun _ => rfl) rows k

/-! ## The backfill stage, group by group -/

theorem proxMeta_grupo (k : String × ℕ) (r : Row) (h : chave r = some k)
    (rest : List Row) :
    proxMeta r rest = ((groupMetas rest k).find? (fun y => decide (y ≠ 0))).getD 0 := by
  induction rest with
  | nil => simp [proxMeta, groupMetas, grupo]
  | cons s rest ih =>
    rw [groupMetas_cons]
    by_cases h1 : chave s = some k
    · have hcc : chave s = chave r := by rw [h1, h]
      by_cases h2 : s.metaMes = 0
      · rw [if_pos h1, proxMeta]
        simp only [h2, ne_eq, not_true_eq_false, and_false, if_false]
        rw [ih, List.find?_cons_of_neg _ (by simp [h2])]
      · rw [if_pos h1, proxMeta, if_pos ⟨hcc, h2⟩,
          List.find?_cons_of_pos _ (by simp [h2])]
        rfl
    · have hcc : ¬(chave s = chave r) := fun hh => h1 (hh.trans h)
      rw [if_neg h1, proxMeta]
      simp only [hcc, false_and, if_false]
      exact ih

theorem groupMetas_addMeta (l : List Row) :
    ∀ k, groupMetas (addMeta l) k = backfillSpec (groupMetas l k) := by
  induction l with
  | nil => intro k; rfl
  | cons r rest ih =>
    intro k
    show groupMetas ({ r with metaMes := novoMeta r rest } :: addMeta rest) k = _
    rw [groupMetas_cons, groupMetas_cons, chave_upd_meta]
    by_cases h : chave r = some k
    · rw [if_pos h, if_pos h]
      show novoMeta r rest :: groupMetas (addMeta rest) k = backfillSpec (r.metaMes :: _)
      rw [backfillSpec]
      congr 1
      · rw [novoMeta, if_neg (by rw [h]; exact fun hh => Option.noConfusion hh)]
        by_cases h2 : r.metaMes = 0
        · simp only [h2, ne_eq, not_true_eq_false, if_false]
          rw [proxMeta_grupo k r h rest]
        · simp [h2]
      · exact ih k
    · rw [if_neg h, if_neg h]
      exact ih k

theorem groupReais_addMeta (l : List Row) :
    ∀ k, groupReais (addMeta l) k = groupReais l k := by
  induction l with
  | nil => intro k; rfl
  | cons r rest ih =>
    intro k
    show groupReais ({ r with metaMes := novoMeta r rest } :: addMeta rest) k = _
    rw [groupReais_cons, groupReais_cons, chave_upd_meta]
    by_cases h : chave r = some k
    · rw [if_pos h, if_pos h, ih k]
    · rw [if_neg h, if_neg h]
      exact ih k

theorem sortKey_congr (a b : Row) (h1 : a.loja = b.loja) (h2 : a.data = b.data) :
    sortKey a = sortKey b := by
  unfold sortKey ymT dT
  rw [h1, h2]

theorem chave_congr (a b : Row) (h1 : a.loja = b.loja) (h2 : a.data = b.data) :
    chave a = chave b := by
  unfold chave
  rw [h1, h2]

theorem mem_addMeta (l : List Row) :
    ∀ b, b ∈ addMeta l → ∃ y ∈ l,
      b.loja = y.loja ∧ b.data = y.data ∧ b.real = y.real ∧ b.dias = y.dias := by
  induction l with
  | nil => intro b hb; simp [addMeta] at hb
  | cons r rest ih =>
    intro b hb
    rcases List.mem_cons.mp hb with h1 | h2
    · subst h1
      exact ⟨r, List.mem_cons_self r rest, rfl, rfl, rfl, rfl⟩
    · obtain ⟨y, hy, he⟩ := ih b h2
      exact ⟨y, List.mem_cons_of_mem r hy, he⟩

theorem sorted_addMeta (l : List Row) (hs : List.Sorted rowLE l) :
    List.Sorted rowLE (addMeta l) := by
  induction l with
  | nil => exact hs
  | cons r rest ih =>
    rw [List.sorted_cons] at hs
    show List.Sorted rowLE ({ r with metaMes := novoMeta r rest } :: addMeta rest)
    rw [List.sorted_cons]
    refine ⟨?_, ih hs.2⟩
    intro b hb
    obtain ⟨y, hy, h1, h2, _, _⟩ := mem_addMeta rest b hb
    have hk : sortKey b = sortKey y := sortKey_congr b y h1 h2
    show sortKey { r with metaMes := novoMeta r rest } ≤ sortKey b
    rw [sortKey_upd_meta, hk]
    exact hs.1 y hy

theorem sorted_map_key (f : Row → Row) (hf : ∀ r, sortKey (f r) = sortKey r)
    (l : List Row) (hs : List.Sorted rowLE l) : List.Sorted rowLE (l.map f) := by
  rw [List.Sorted, List.pairwise_map]
  exact hs.imp (fun {a b} hab => by
    show sortKey (f a) ≤ sortKey (f b)
    rw [hf, hf]; exact hab)

theorem sorted_addDias (rows : List Row) (hs : List.Sorted rowLE rows) :
    List.Sorted rowLE (addDias rows) :=
  sorted_map_key (fun r => { r with dias := diasDe rows r }) (fun _ => rfl) rows hs

/-! ## The first-difference stage, group by group -/

/-- `Real` of the last group-`k` row of a prefix of the table. -/
def ultimoReal (prev : List Row) (k : String × ℕ) : Option ℚ :=
  ((grupo prev k).getLast?).map (fun r => r.real)

theorem realAnterior_grupo (r : Row) (prev : List Row) (k : String × ℕ)
    (h : chave r = some k) : realAnterior r prev = ultimoReal prev k := by
  unfold realAnterior ultimoReal grupo
  simp only [h]

theorem grupo_append (l1 l2 : List Row) (k : String × ℕ) :
    grupo (l1 ++ l2) k = grupo l1 k ++ grupo l2 k :=
  List.filter_append _ _

theorem ultimoReal_append_pos (prev : List Row) (r : Row) (k : String × ℕ)
    (h : chave r = some k) : ultimoReal (prev ++ [r]) k = some r.real := by
  unfold ultimoReal
  rw [grupo_append]
  have hg : grupo [r] k = [r] := by simp [grupo, List.filter_cons, h]
  rw [hg, List.getLast?_concat]
  rfl

theorem ultimoReal_append_neg (prev : List Row) (r : Row) (k : String × ℕ)
    (h : ¬chave r = some k) : ultimoReal (prev ++ [r]) k = ultimoReal prev k := by
  unfold ultimoReal
  rw [grupo_append]
  have hg : grupo [r] k = [] := by simp [grupo, List.filter_cons, h]
  rw [hg, List.append_nil]

theorem addRVgo_cons (prev : List Row) (r : Row) (rest : List Row) :
    addRVgo prev (r :: rest) =
      { r with realVariacao := novaRV r prev } :: addRVgo (prev ++ [r]) rest := rfl

theorem groupRV_addRVgo (l : List Row) :
    ∀ (prev : List Row) (k : String × ℕ),
      groupRV (addRVgo prev l) k = variacaoFrom (ultimoReal prev k) (groupReais l k) := by
  induction l with
  | nil => intro prev k; rfl
  | cons r rest ih =>
    intro prev k
    rw [addRVgo_cons, groupRV_cons, groupReais_cons, chave_upd_rv]
    by_cases h : chave r = some k
    · rw [if_pos h, if_pos h, ih (prev ++ [r]) k, ultimoReal_append_pos prev r k h,
        variacaoFrom_cons]
      congr 1
      simp only [novaRV, h, realAnterior_grupo r prev k h]
      cases hu : ultimoReal prev k <;> simp
    · rw [if_neg h, if_neg h, ih (prev ++ [r]) k, ultimoReal_append_neg prev r k h]

theorem groupMetas_addRVgo (l : List Row) :
    ∀ (prev : List Row) (k : String × ℕ),
      groupMetas (addRVgo prev l) k = groupMetas l k := by
  induction l with
  | nil => intro prev k; rfl
  | cons r rest ih =>
    intro prev k
    rw [addRVgo_cons, groupMetas_cons, groupMetas_cons, chave_upd_rv]
    by_cases h : chave r = some k
    · rw [if_pos h, if_pos h, ih (prev ++ [r]) k]
    · rw [if_neg h, if_neg h]
      exact ih (prev ++ [r]) k

theorem groupReais_addRVgo (l : List Row) :
    ∀ (prev : List Row) (k : String × ℕ),
      groupReais (addRVgo prev l) k = groupReais l k := by
  induction l with
  | nil => intro prev k; rfl
  | cons r rest ih =>
    intro prev k
    rw [addRVgo_cons, groupReais_cons, groupReais_cons, chave_upd_rv]
    by_cases h : chave r = some k
    · rw [if_pos h, if_pos h, ih (prev ++ [r]) k]
    · rw [if_neg h, if_neg h]
      exact ih (prev ++ [r]) k

theorem mem_addRVgo (l : List Row) :
    ∀ (prev : List Row) (b : Row), b ∈ addRVgo prev l → ∃ y ∈ l,
      b.loja = y.loja ∧ b.data = y.data ∧ b.real = y.real ∧ b.dias = y.dias ∧
        b.metaMes = y.metaMes := by
  induction l with
  | nil => intro prev b hb; simp [addRVgo] at hb
  | cons r rest ih =>
    intro prev b hb
    rw [addRVgo_cons] at hb
    rcases List.mem_cons.mp hb with h1 | h2
    · subst h1
      exact ⟨r, List.mem_cons_self r rest, rfl, rfl, rfl, rfl, rfl⟩
    · obtain ⟨y, hy, he⟩ := ih (prev ++ [r]) b h2
      exact ⟨y, List.mem_cons_of_mem r hy, he⟩

theorem mem_addDias (rows : List Row) (b : Row) (hb : b ∈ addDias rows) :
    ∃ y ∈ rows, b.loja = y.loja ∧ b.data = y.data ∧ b.real = y.real ∧
      b.metaMes = y.metaMes ∧ b.dias = diasDe rows y := by
  obtain ⟨y, hy, he⟩ := List.mem_map.mp hb
  subst he
  exact ⟨y, hy, rfl, rfl, rfl, rfl, rfl⟩

theorem mem_addMetaDia (rows : List Row) (b : Row) (hb : b ∈ addMetaDia rows) :
    ∃ y ∈ rows, b.loja = y.loja ∧ b.data = y.data ∧ b.real = y.real ∧
      b.metaMes = y.metaMes ∧ b.dias = y.dias ∧
      b.metaDia = y.dias.map (fun n : ℕ => y.metaMes / (n : ℚ)) := by
  obtain ⟨y, hy, he⟩ := List.mem_map.mp hb
  subst he
  exact ⟨y, hy, rfl, rfl, rfl, rfl, rfl, rfl⟩

/-! ## The assembled pipeline -/

theorem carregar_eq_of_sorted (rows : List Row) (hs : List.Sorted rowLE rows) :
    carregar_dados rows = addMetaDia (addRV (addMeta (addDias rows))) := by
  unfold carregar_dados
  rw [List.Sorted.insertionSort_eq (sorted_addMeta _ (sorted_addDias rows hs))]

theorem groupMetas_carregar (rows : List Row) (k : String × ℕ)
    (hs : List.Sorted rowLE rows) :
    groupMetas (carregar_dados rows) k = backfillSpec (groupMetas rows k) := by
  rw [carregar_eq_of_sorted rows hs, groupMetas_addMetaDia]
  show groupMetas (addRVgo [] (addMeta (addDias rows))) k = _
  rw [groupMetas_addRVgo, groupMetas_addMeta, groupMetas_addDias]

theorem groupRV_carregar (rows : List Row) (k : String × ℕ)
    (hs : List.Sorted rowLE rows) :
    groupRV (carregar_dados rows) k = variacao (groupReais rows k) := by
  rw [carregar_eq_of_sorted rows hs, groupRV_addMetaDia]
  show groupRV (addRVgo [] (addMeta (addDias rows))) k = _
  rw [groupRV_addRVgo]
  show variacaoFrom none _ = _
  rw [groupReais_addMeta, groupReais_addDias, ← variacao_eq_from]

/-- Every output row of `carregar_dados` descends from an input row with
the same store, date and `Real`; it carries the group size that input row
keys into `DIAS`, and `Meta Dia` is its (backfilled) `Meta Mês` divided
by `DIAS`. -/
theorem carregar_campos (rows : List Row) (r : Row) (hr : r ∈ carregar_dados rows) :
    ∃ y ∈ rows, r.loja = y.loja ∧ r.data = y.data ∧ r.real = y.real ∧
      r.dias = diasDe rows y ∧
      r.metaDia = r.dias.map (fun n : ℕ => r.metaMes / (n : ℚ)) := by
  unfold carregar_dados at hr
  obtain ⟨y4, hy4, hl4, hd4, hr4, hm4, hdias4, hmd4⟩ := mem_addMetaDia _ r hr
  obtain ⟨y3, hy3, hl3, hd3, hr3, hdias3, hm3⟩ := mem_addRVgo _ [] y4 hy4
  have hy3m : y3 ∈ addMeta (addDias rows) := (List.mem_insertionSort rowLE).mp hy3
  obtain ⟨y2, hy2, hl2, hd2, hr2, hdias2⟩ := mem_addMeta _ y3 hy3m
  obtain ⟨y, hy, hl1, hd1, hr1, _, hdias1⟩ := mem_addDias rows y2 hy2
  refine ⟨y, hy, ?_, ?_, ?_, ?_, ?_⟩
  · rw [hl4, hl3, hl2, hl1]
  · rw [hd4, hd3, hd2, hd1]
  · rw [hr4, hr3, hr2, hr1]
  · rw [hdias4, hdias3, hdias2, hdias1]
  · rw [hmd4, hdias4, hdias3, hdias2, hm4]

/-- A row of the loaded table with a parsed date carries `DIAS` equal to
its group's row count, that count is at least 1, and `Meta Dia` is its
`Meta Mês` over that count. -/
theorem dias_of_mem (rows : List Row) (r : Row) (hr : r ∈ carregar_dados rows)
    (k : String × ℕ) (hk : chave r = some k) :
    r.dias = some ((grupo rows k).length) ∧ 1 ≤ (grupo rows k).length ∧
      r.metaDia = some (r.metaMes / (((grupo rows k).length : ℕ) : ℚ)) := by
  obtain ⟨y, hy, hl, hd, _, hdias, hmd⟩ := carregar_campos rows r hr
  have hky : chave y = some k := (chave_congr r y hl hd) ▸ hk
  have hdias2 : r.dias = some ((grupo rows k).length) := by
    rw [hdias]
    unfold diasDe
    rw [hky]
    rfl
  have hmem : y ∈ grupo rows k := List.mem_filter.mpr ⟨hy, by simp [hky]⟩
  refine ⟨hdias2, ?_, ?_⟩
  · exact Nat.succ_le_of_lt (List.length_pos.mpr (List.ne_nil_of_mem hmem))
  · rw [hmd, hdias2]
    rfl

/-- A row of the loaded table whose date failed to parse has no `DIAS`
and no `Meta Dia`. -/
theorem dias_none_of_mem (rows : List Row) (r : Row) (hr : r ∈ carregar_dados rows)
    (hd : r.data = none) : r.dias = none ∧ r.metaDia = none := by
  obtain ⟨y, hy, hl, hdd, _, hdias, hmd⟩ := carregar_campos rows r hr
  have hyd : y.data = none := hdd ▸ hd
  have h1 : r.dias = none := by
    rw [hdias]
    unfold diasDe chave
    rw [hyd]
    rfl
  exact ⟨h1, by rw [hmd, h1]; rfl⟩

/-! ## Aggregation lemmas -/

theorem acumula_data (l : List (Date × ℚ × ℚ)) :
    ∀ ra ma, (acumula ra ma l).map (fun a => a.data) = l.map (fun t => t.1) := by
  induction l with
  | nil => intro ra ma; rfl
  | cons t rest ih =>
    intro ra ma
    obtain ⟨d, rv, md⟩ := t
    simp [acumula, ih]

theorem acumula_desvios (l : List (Date × ℚ × ℚ)) :
    ∀ ra ma a, a ∈ acumula ra ma l →
      a.desvioDia = a.realVariacao - a.metaDia ∧
        a.desvioAcum = a.realAcum - a.metaAcum := by
  induction l with
  | nil => intro ra ma a ha; simp [acumula] at ha
  | cons t rest ih =>
    intro ra ma a ha
    obtain ⟨d, rv, md⟩ := t
    rcases List.mem_cons.mp ha with h1 | h2
    · subst h1
      exact ⟨rfl, rfl⟩
    · exact ih _ _ a h2

theorem df_grouped_datas_sorted (rows : List Row) :
    List.Sorted dLE ((df_grouped rows).map (fun a => a.data)) := by
  unfold df_grouped
  rw [acumula_data]
  have hmm : ((datas rows).map (fun d => (d, somaRV rows d, somaMD rows d))).map
      (fun t : Date × ℚ × ℚ => t.1) = datas rows := by
    rw [List.map_map]
    exact List.map_id _
  rw [hmm]
  exact List.sorted_insertionSort dLE _

/-! ## Concrete tables used by witnesses and counterexamples -/

def dia1 : Date := ⟨2025, 1, 1⟩

def dia2 : Date := ⟨2025, 1, 2⟩

def dia3 : Date := ⟨2025, 1, 3⟩

/-- A ledger row with the non-derived columns filled in. -/
def linha (l : String) (d : Option Date) (re me : ℚ) : Row :=
  { loja := l, produto := "Novo", regional := "R1", coordenador := "C1",
    data := d, real := re, metaMes := me }

/-- §8 end-to-end scenario: two stores, same month, targets on the later
row only. -/
def cenario : List Row :=
  [ linha "Loja A" (some dia1) 100 0, linha "Loja A" (some dia2) 300 600,
    linha "Loja B" (some dia1) 50 0, linha "Loja B" (some dia2) 50 200 ]

/-- A group whose only non-zero target sits on the first date: the zero
below it stays zero under a backward fill. -/
def exTrail : List Row :=
  [ linha "Loja A" (some dia1) 100 500, linha "Loja A" (some dia2) 300 0 ]

/-- The §8 backfill/delta example group: targets `[0, 0, 500]`, `Real`
`[100, 250, 250]`, dates ascending. -/
def exBackfill : List Row :=
  [ linha "Loja A" (some dia1) 100 0, linha "Loja A" (some dia2) 250 0,
    linha "Loja A" (some dia3) 250 500 ]

/-- Two rows of the same store on the same day. -/
def exDup : List Row :=
  [ linha "Loja A" (some dia1) 100 500, linha "Loja A" (some dia1) 40 0 ]

/-- The first loaded row of `exDup`. -/
def exDupOut1 : Row :=
  { loja := "Loja A", produto := "Novo", regional := "R1", coordenador := "C1",
    data := some dia1, real := 100, metaMes := 500, dias := some 2,
    realVariacao := some 100, metaDia := some 250 }

/-- One row whose raw date failed to parse. -/
def exNat : List Row := [ linha "Loja N" none 7 5 ]

/-- The single loaded row of `exNat`: no group, no `DIAS`, zeroed target. -/
def exNatOut : Row :=
  { loja := "Loja N", produto := "Novo", regional := "R1", coordenador := "C1",
    data := none, real := 7, metaMes := 0, dias := none,
    realVariacao := none, metaDia := none }

theorem soma_variacao (l : List ℚ) : (variacao l).sum = l.getLast?.getD 0 := by
  cases l with
  | nil => rfl
  | cons x xs =>
    rw [variacao_eq_from]
    cases xs with
    | nil => simp [variacaoFrom]
    | cons y ys =>
      cases hz : (y :: ys).getLast? with
      | none => simp at hz
      | some z =>
        have hx := soma_variacaoFrom_some (y :: ys) x
        rw [hz] at hx
        have hS : (variacaoFrom (some y) ys).sum = z - y := by
          simp only [variacaoFrom, List.sum_cons, Option.getD_some] at hx
          linarith
        simp only [variacaoFrom, List.sum_cons, List.getLast?_cons_cons, hz,
          Option.getD_some, hS]
        ring

/-! ## The claims -/

/-- C1 (counterexample): on a date-sorted group whose targets are
`[500, 0]`, the backfiller leaves `[500, 0]` — the second row does not
carry the group's first (and only) non-zero target, and the group is not
constant after backfill.  A backward fill never propagates a value onto
the zeros after the last non-zero row. -/
theorem claim_C1_counterexample :
    List.Sorted rowLE exTrail ∧
    groupMetas (carregar_dados exTrail) ("Loja A", 202501) = [500, 0] ∧
    groupMetas (carregar_dados exTrail) ("Loja A", 202501) ≠ [500, 500] := by
  decide

/-- C1 (amended): after the Target Backfiller runs on date-sorted input,
each row's `Meta Mês` equals the first non-zero target at or after that
row's position in the group's date order, and zero when no such target
exists (in particular an all-zero group resolves to all zeros, and the
group is constant exactly when no zero follows the last non-zero
target); the column keeps one value per row. -/
theorem claim_C1 (rows : List Row) (k : String × ℕ) (hs : List.Sorted rowLE rows) :
    (groupMetas (carregar_dados rows) k).length = (groupMetas rows k).length ∧
    ∀ i : ℕ, (groupMetas (carregar_dados rows) k).getD i 0 =
      (((groupMetas rows k).drop i).find? (fun y => decide (y ≠ 0))).getD 0 := by
  rw [groupMetas_carregar rows k hs]
  exact ⟨backfillSpec_length _, backfillSpec_getD _⟩

/-- C1 witness: the amended statement applied to the `[500, 0]` group. -/
theorem claim_C1_witness :
    (groupMetas (carregar_dados exTrail) ("Loja A", 202501)).length =
      (groupMetas exTrail ("Loja A", 202501)).length :=
  (claim_C1 exTrail ("Loja A", 202501) (by decide)).1

/-- C2: on date-sorted input the Target Backfiller sends every (store,
month) group's target sequence to its backward fill: zero is missing,
each missing value takes the next non-missing value later in the group's
date order, and a missing value with no later non-missing value becomes
0; in particular `[0, 0, 500]` becomes `[500, 500, 500]`. -/
theorem claim_C2 (rows : List Row) (k : String × ℕ) (hs : List.Sorted rowLE rows) :
    groupMetas (carregar_dados rows) k = backfillSpec (groupMetas rows k) ∧
    backfillSpec [0, 0, 500] = [500, 500, 500] :=
  ⟨groupMetas_carregar rows k hs, by decide⟩

/-- C2 witness: the `[0, 0, 500]` group of §8. -/
theorem claim_C2_witness :
    groupMetas (carregar_dados exBackfill) ("Loja A", 202501) =
      backfillSpec (groupMetas exBackfill ("Loja A", 202501)) ∧
    backfillSpec [0, 0, 500] = [500, 500, 500] :=
  claim_C2 exBackfill ("Loja A", 202501) (by decide)

/-- C3: on date-sorted input the Delta Deriver sends each (store, month)
group's `Real` sequence to its first difference: the first row keeps its
raw `Real`, each later row gets current minus previous `Real`, the output
has one value per input row, and negative deltas are preserved
unclamped (`[100, 40] ↦ [100, -60]`); `[100, 250, 250] ↦ [100, 150, 0]`. -/
theorem claim_C3 (rows : List Row) (k : String × ℕ) (hs : List.Sorted rowLE rows) :
    groupRV (carregar_dados rows) k = variacao (groupReais rows k) ∧
    (groupRV (carregar_dados rows) k).length = (groupReais rows k).length ∧
    (groupRV (carregar_dados rows) k).getD 0 0 = (groupReais rows k).getD 0 0 ∧
    (∀ i : ℕ, i + 1 < (groupReais rows k).length →
      (groupRV (carregar_dados rows) k).getD (i + 1) 0 =
        (groupReais rows k).getD (i + 1) 0 - (groupReais rows k).getD i 0) ∧
    variacao [100, 250, 250] = [100, 150, 0] ∧
    variacao [100, 40] = [100, -60] := by
  rw [groupRV_carregar rows k hs]
  refine ⟨rfl, variacao_length _, variacao_getD_zero _, ?_, by decide, by decide⟩
  intro i hi
  rw [variacao_eq_from]
  exact variacaoFrom_getD_succ _ none i hi

/-- C3 witness: the §8 delta example group. -/
theorem claim_C3_witness :
    groupRV (carregar_dados exBackfill) ("Loja A", 202501) =
      variacao (groupReais exBackfill ("Loja A", 202501)) :=
  (claim_C3 exBackfill ("Loja A", 202501) (by decide)).1

/-- C4: for every (store, month) group of date-sorted input,
`Real_Variacao` sums over the group to the raw `Real` of the group's last
row in date order (the telescoping-sum property). -/
theorem claim_C4 (rows : List Row) (k : String × ℕ) (hs : List.Sorted rowLE rows)
    (x : ℚ) (hx : (groupReais rows k).getLast? = some x) :
    (groupRV (carregar_dados rows) k).sum = x := by
  rw [groupRV_carregar rows k hs, soma_variacao, hx]
  rfl

/-- C4 witness: the §8 example group sums to its last `Real`, 250. -/
theorem claim_C4_witness :
    (groupRV (carregar_dados exBackfill) ("Loja A", 202501)).sum = 250 :=
  claim_C4 exBackfill ("Loja A", 202501) (by decide) 250 (by decide)

/-- C5: the Currency Parser is total (it returns a rational for every
input, never raising): numbers pass through, missing input and the
trimmed strings `""`/`"-"` give 0.0, `"R$ 1.234,56"` parses to 1234.56
with the dot dropped as a Brazilian thousands separator and the comma
read as the decimal point, parse failures give 0.0, and `parse(10) =
10.0`. -/
theorem claim_C5 :
    (∀ q : ℚ, limpar_moeda (Valor.num q) = q) ∧
    limpar_moeda Valor.nulo = 0 ∧
    limpar_moeda Valor.outro = 0 ∧
    limpar_moeda (Valor.texto "R$ 1.234,56") = 1234.56 ∧
    limpar_moeda (Valor.texto "") = 0 ∧
    limpar_moeda (Valor.texto "-") = 0 ∧
    limpar_moeda (Valor.texto " - ") = 0 ∧
    limpar_moeda (Valor.num 10) = 10 ∧
    limpar_moeda (Valor.texto "abc") = 0 ∧
    limpar_moeda (Valor.texto "1.234.567,89") = 0 :=
  ⟨fun _ => rfl, rfl, rfl, by decide, by decide, by decide, by decide, rfl,
    by decide, by decide⟩

/-- C6 (counterexample): with two rows of the same store on the same
day, every loaded row carries `DIAS = 2` — the group's row count — while
the count of distinct observed days is 1, so `DIAS` is not the distinct-
day count. -/
theorem claim_C6_counterexample :
    diasDistintos exDup ("Loja A", 202501) = 1 ∧
    (∀ r ∈ carregar_dados exDup, r.dias = some 2) ∧
    ¬ ∀ r ∈ carregar_dados exDup,
        r.dias = some (diasDistintos exDup ("Loja A", 202501)) := by
  decide

/-- C6 (amended): for every (store, calendar-month) group, `DIAS` equals
the number of rows of the raw data in that group (which is the distinct-
day count only when no day repeats), and this value is joined onto every
row of the group. -/
theorem claim_C6 (rows : List Row) (r : Row) (hr : r ∈ carregar_dados rows)
    (k : String × ℕ) (hk : chave r = some k) :
    r.dias = some ((grupo rows k).length) :=
  (dias_of_mem rows r hr k hk).1

/-- C6 witness: a loaded `exDup` row carries its group's row count. -/
theorem claim_C6_witness :
    exDupOut1.dias = some ((grupo exDup ("Loja A", 202501)).length) :=
  claim_C6 exDup exDupOut1 (by decide) ("Loja A", 202501) (by decide)

/-- C7 (counterexample): a row whose raw date fails to parse exists in
the loaded table but carries no `DIAS` at all, so `DIAS ≥ 1` does not
hold for every existing row. -/
theorem claim_C7_counterexample :
    ¬ ∀ r ∈ carregar_dados exNat, ∃ n : ℕ, r.dias = some n ∧ 1 ≤ n := by
  intro h
  obtain ⟨r, hr, hd⟩ : ∃ r ∈ carregar_dados exNat, r.dias = none := by decide
  obtain ⟨n, hn, _⟩ := h r hr
  rw [hn] at hd
  exact Option.noConfusion hd

/-- C7 (amended): every loaded row with a parsed date has `DIAS = n ≥ 1`
(a row implies at least one observation in its group) and `Meta Dia`
equal to its post-backfill `Meta Mês` divided by `n`, so the division is
never by zero; rows with unparsed dates instead carry no `DIAS` and no
`Meta Dia`. -/
theorem claim_C7 (rows : List Row) (r : Row) (hr : r ∈ carregar_dados rows)
    (d : Date) (hd : r.data = some d) :
    ∃ n : ℕ, r.dias = some n ∧ 1 ≤ n ∧ r.metaDia = some (r.metaMes / (n : ℚ)) := by
  have hk : chave r = some (r.loja, ymN d) := by
    unfold chave
    rw [hd]
    rfl
  obtain ⟨h1, h2, h3⟩ := dias_of_mem rows r hr (r.loja, ymN d) hk
  exact ⟨_, h1, h2, h3⟩

/-- C7 witness: the first loaded `exDup` row has `DIAS = 2 ≥ 1` and
`Meta Dia = 500 / 2`. -/
theorem claim_C7_witness :
    ∃ n : ℕ, exDupOut1.dias = some n ∧ 1 ≤ n ∧
      exDupOut1.metaDia = some (exDupOut1.metaMes / (n : ℚ)) :=
  claim_C7 exDup exDupOut1 (by decide) dia1 rfl

/-- C8: the Aggregator groups the filtered subset by date summing
`Real_Variacao` and `Meta Dia` (multiple stores on one date add), sorts
the per-date series ascending, and takes running sums and deviations; on
the §8 two-store scenario the whole pipeline yields
`REAL_ACUM = [150, 350]`, `META_ACUM = [400, 800]`,
`DESVIO_ACUM = [-250, -450]`. -/
theorem claim_C8 :
    painel cenario none none none none 2025 1 =
      some
        [ { data := dia1, realVariacao := 150, metaDia := 400, realAcum := 150,
            metaAcum := 400, desvioDia := -250, desvioAcum := -250 },
          { data := dia2, realVariacao := 200, metaDia := 400, realAcum := 350,
            metaAcum := 800, desvioDia := -200, desvioAcum := -450 } ] ∧
    (∀ rows : List Row, List.Sorted dLE ((df_grouped rows).map (fun a => a.data))) ∧
    (∀ rows : List Row, ∀ a ∈ df_grouped rows,
      a.desvioDia = a.realVariacao - a.metaDia ∧
        a.desvioAcum = a.realAcum - a.metaAcum) := by
  refine ⟨by decide, df_grouped_datas_sorted, ?_⟩
  intro rows a ha
  exact acumula_desvios _ _ _ a ha

/-- C9: the page yields the distinct "no data" signal (`none`) exactly
when the filtered and windowed subset is empty, and aggregates otherwise
— so the Aggregator and everything after it never run on an empty
subset. -/
theorem claim_C9 (raw : List Row) (p rg c l : Option String) (ano mes : ℕ) :
    (painel raw p rg c l ano mes = none ↔
      df_f (carregar_dados raw) p rg c l ano mes = []) ∧
    (df_f (carregar_dados raw) p rg c l ano mes ≠ [] →
      painel raw p rg c l ano mes =
        some (df_grouped (df_f (carregar_dados raw) p rg c l ano mes))) := by
  constructor
  · show (if (df_f (carregar_dados raw) p rg c l ano mes).isEmpty then none
        else some (df_grouped (df_f (carregar_dados raw) p rg c l ano mes))) = none ↔ _
    cases hx : df_f (carregar_dados raw) p rg c l ano mes with
    | nil => simp
    | cons a t => simp
  · intro hne
    show (if (df_f (carregar_dados raw) p rg c l ano mes).isEmpty then none
        else some (df_grouped (df_f (carregar_dados raw) p rg c l ano mes))) = _
    cases hx : df_f (carregar_dados raw) p rg c l ano mes with
    | nil => exact absurd hx hne
    | cons a t => simp

/-- C9 witness: the §8 scenario subset is non-empty and aggregates. -/
theorem claim_C9_witness :
    painel cenario none none none none 2025 1 =
      some (df_grouped (df_f (carregar_dados cenario) none none none none 2025 1)) :=
  (claim_C9 cenario none none none none 2025 1).2 (by decide)

/-- C10: a loaded row whose raw date failed to parse is excluded from
the filtered and windowed subset for every selection (the year/month
window is false on a null date), and it carries no `DIAS` value (the
group-by drops null keys). -/
theorem claim_C10 (raw : List Row) (p rg c l : Option String) (ano mes : ℕ)
    (r : Row) (hr : r ∈ carregar_dados raw) (hd : r.data = none) :
    r ∉ df_f (carregar_dados raw) p rg c l ano mes ∧ r.dias = none := by
  refine ⟨?_, (dias_none_of_mem raw r hr hd).1⟩
  intro hmem
  unfold df_f janela at hmem
  have hpred := (List.mem_filter.mp hmem).2
  rw [hd] at hpred
  simp at hpred

/-- C10 witness: the null-dated `exNat` row is in the loaded table, out
of every selection, and has no `DIAS`. -/
theorem claim_C10_witness :
    exNatOut ∉ df_f (carregar_dados exNat) none none none none 2025 1 ∧
      exNatOut.dias = none :=
  claim_C10 exNat none none none none 2025 1 exNatOut (by decide) rfl

end Desempenho
